import Mathlib

/-!
Verification of the `fastapi-microservices` repository: a URL-shortener
service (`src/shorturl-service/main.py`) and a to-do service
(`src/todo-service/main.py`), both thin REST wrappers over a single
sqlite table.

Shallow embedding conventions:
* The sqlite `urls` table is a `List UrlRow` in rowid (insertion) order,
  together with the next AUTOINCREMENT id.  `SELECT ... WHERE c = ?`
  followed by `fetchone()` is `List.find?` (first row in rowid order);
  `UPDATE ... WHERE` maps over all matching rows; `DELETE ... WHERE`
  filters out all matching rows.  `TIMESTAMP DEFAULT CURRENT_TIMESTAMP`
  is a `Nat` supplied by the caller as `now`.
* `random.choice(characters)` is modelled by an oracle: each call to
  `generate_short_id` receives the six drawn indices `Fin 6 → Fin 62`,
  and the allocation loop in `shorten_url` receives a stream of
  candidate codes `gen : Nat → String` plus fuel; `none` means the
  unbounded `while True` loop did not exit within the given fuel.
* `raise HTTPException(404)` is `Except.error HTTPErr.notFound`; an
  unhandled exception surfacing as HTTP 500 is `HTTPErr.serverError`.
-/

/-- HTTP-level failures surfaced by the endpoints. -/
inductive HTTPErr where
  | notFound
  | serverError
deriving DecidableEq, Repr

/-- One row of the `urls` table created by `init_db`:
`id INTEGER PRIMARY KEY AUTOINCREMENT, short_id TEXT UNIQUE NOT NULL,
full_url TEXT NOT NULL, created_at TIMESTAMP DEFAULT CURRENT_TIMESTAMP,
clicks INTEGER DEFAULT 0`. -/
structure UrlRow where
  id : Nat
  short_id : String
  full_url : String
  created_at : Nat
  clicks : Nat
deriving DecidableEq, Repr

/-- The `urls` table: rows in rowid order plus the AUTOINCREMENT counter. -/
structure UrlStore where
  rows : List UrlRow
  nextId : Nat
deriving DecidableEq, Repr

/-- The freshly initialised database: no rows, AUTOINCREMENT starts at 1. -/
def emptyStore : UrlStore := { rows := [], nextId := 1 }

/-- `string.ascii_letters + string.digits`: the 62-symbol alphabet used by
`generate_short_id` (lowercase, then uppercase, then digits). -/
def characters : List Char :=
  "abcdefghijklmnopqrstuvwxyzABCDEFGHIJKLMNOPQRSTUVWXYZ0123456789".toList

/-- `generate_short_id(length=6)`: join 6 characters, each drawn by
`random.choice(characters)`; the oracle `choice` supplies the six drawn
indices. -/
def generate_short_id (choice : Fin 6 → Fin 62) : String :=
  String.mk (List.ofFn fun i => characters.get (Fin.cast (by decide) (choice i)))

/-- `SELECT id FROM urls WHERE short_id = ?` probe: does some row carry
this code? -/
def hasCode (st : UrlStore) (c : String) : Bool :=
  st.rows.any fun r => r.short_id == c

/-- The `while True` candidate loop of `shorten_url` (lines 107–111):
draw `gen i`, probe the store, exit with the candidate once the probe
finds nothing.  `i` is the index of the next draw, `fuel` bounds how far
we unroll the (source-side unbounded) loop; `none` means no exit within
`fuel` draws. -/
def probeLoop (gen : Nat → String) (st : UrlStore) : Nat → Nat → Option String
  | _, 0 => none
  | i, fuel + 1 =>
    if hasCode st (gen i) then probeLoop gen st (i + 1) fuel
    else some (gen i)

/-- `INSERT INTO urls (short_id, full_url) VALUES (?, ?)`: append a row
with the next AUTOINCREMENT id, `created_at` defaulted to the current
time and `clicks` defaulted to 0. -/
def insertRow (code u : String) (now : Nat) (st : UrlStore) : UrlStore :=
  { rows := st.rows ++ [{ id := st.nextId, short_id := code, full_url := u,
                          created_at := now, clicks := 0 }],
    nextId := st.nextId + 1 }

/-- The JSON body returned by `POST /shorten`. -/
structure ShortenResp where
  short_id : String
  short_url : String
  full_url : String
  message : Option String
deriving DecidableEq, Repr

/-- `shorten_url` (POST /shorten, lines 87–131): reuse check by
`full_url`, then the candidate loop, then the insert.  Returns `none`
when the candidate loop does not exit within `fuel` draws. -/
def shorten_url (gen : Nat → String) (fuel : Nat) (u : String) (now : Nat)
    (st : UrlStore) : Option (ShortenResp × UrlStore) :=
  match st.rows.find? (fun r => r.full_url == u) with
  | some r =>
    some ({ short_id := r.short_id,
            short_url := "http://localhost:8001/" ++ r.short_id,
            full_url := u, message := some "URL already exists" }, st)
  | none =>
    match probeLoop gen st 0 fuel with
    | none => none
    | some code =>
      some ({ short_id := code,
              short_url := "http://localhost:8001/" ++ code,
              full_url := u, message := none }, insertRow code u now st)

/-- `redirect_to_url` (GET /\x7bshort_id\x7d, lines 219–242): look up
`full_url` by `short_id` (404 when absent), else
`UPDATE urls SET clicks = clicks + 1 WHERE short_id = ?` and redirect to
the stored URL.  The result pairs the response (redirect target or
error) with the store after the call. -/
def redirect_to_url (code : String) (st : UrlStore) :
    Except HTTPErr String × UrlStore :=
  match st.rows.find? (fun r => r.short_id == code) with
  | none => (.error .notFound, st)
  | some r =>
    (.ok r.full_url,
     { st with rows := st.rows.map fun q =>
         if q.short_id == code then { q with clicks := q.clicks + 1 } else q })

/-- `delete_url` (DELETE /delete/\x7bshort_id\x7d, lines 194–216): 404
when no row has the code, else `DELETE FROM urls WHERE short_id = ?`. -/
def delete_url (code : String) (st : UrlStore) :
    Except HTTPErr String × UrlStore :=
  match st.rows.find? (fun r => r.short_id == code) with
  | none => (.error .notFound, st)
  | some _ =>
    (.ok "URL deleted successfully",
     { st with rows := st.rows.filter fun r => !(r.short_id == code) })

/-- The JSON body returned by `GET /stats/\x7bshort_id\x7d`. -/
structure StatsResp where
  short_id : String
  full_url : String
  created_at : Nat
  clicks : Nat
deriving DecidableEq, Repr

/-- `get_stats` (GET /stats/\x7bshort_id\x7d, lines 145–162): pure read,
404 when absent. -/
def get_stats (code : String) (st : UrlStore) : Except HTTPErr StatsResp :=
  match st.rows.find? (fun r => r.short_id == code) with
  | none => .error .notFound
  | some r => .ok { short_id := r.short_id, full_url := r.full_url,
                    created_at := r.created_at, clicks := r.clicks }

/-- `ORDER BY created_at DESC` as a relation: `a` may precede `b` when
`a.created_at ≥ b.created_at`. -/
def createdGe (a b : UrlRow) : Prop := b.created_at ≤ a.created_at

instance : DecidableRel createdGe :=
  fun a b => inferInstanceAs (Decidable (b.created_at ≤ a.created_at))

instance : IsTotal UrlRow createdGe :=
  ⟨fun a b => (Nat.le_total b.created_at a.created_at).imp id id⟩

instance : IsTrans UrlRow createdGe :=
  ⟨fun _ _ _ hab hbc => Nat.le_trans hbc hab⟩

/-- `get_all_urls` (GET /all, lines 134–142):
`SELECT * FROM urls ORDER BY created_at DESC`; a pure read, so the
store component is returned unchanged.  sqlite's sort is modelled by
insertion sort under `createdGe`; sqlite promises no order among rows
with equal `created_at`, so any descending arrangement is faithful. -/
def get_all_urls (st : UrlStore) : List UrlRow × UrlStore :=
  (st.rows.insertionSort createdGe, st)

/-- Database-layer failures. `integrityError` is sqlite's
`IntegrityError` raised when an `INSERT` violates the
`short_id TEXT UNIQUE` constraint. -/
inductive SqlError where
  | integrityError
deriving DecidableEq, Repr

/-- `shorten_url` refined to expose the window between the uniqueness
probe (lines 107–111) and the `INSERT` (lines 114–117): `raced` is a
row committed by a concurrent request inside that window.  sqlite
enforces `short_id TEXT UNIQUE`, so the `INSERT` raises
`IntegrityError` when the candidate is present at commit time; the
source has no handler for it, so the error propagates out of the
endpoint (HTTP 500) instead of restarting the candidate loop. -/
def shorten_url_raced (gen : Nat → String) (fuel : Nat) (u : String)
    (now : Nat) (raced : UrlRow) (st : UrlStore) :
    Option (Except SqlError (ShortenResp × UrlStore)) :=
  match st.rows.find? (fun r => r.full_url == u) with
  | some r =>
    some (.ok ({ short_id := r.short_id,
                 short_url := "http://localhost:8001/" ++ r.short_id,
                 full_url := u, message := some "URL already exists" }, st))
  | none =>
    match probeLoop gen st 0 fuel with
    | none => none
    | some code =>
      let st2 : UrlStore := { rows := st.rows ++ [raced], nextId := st.nextId + 1 }
      if hasCode st2 code then some (.error .integrityError)
      else
        some (.ok ({ short_id := code,
                     short_url := "http://localhost:8001/" ++ code,
                     full_url := u, message := none }, insertRow code u now st2))

/-- One client-visible operation against the shorturl service.  The
randomness oracle and fuel travel with the `shorten` operation. -/
inductive UrlOp where
  | shorten (gen : Nat → String) (fuel : Nat) (u : String) (now : Nat)
  | redirect (code : String)
  | delete (code : String)
  | stats (code : String)
  | getAll

/-- The store after running one operation.  A `shorten` whose candidate
loop does not exit reaches no post-state; taking the pre-state keeps
`runOps` total without adding any new reachable store. -/
def UrlOp.step (op : UrlOp) (st : UrlStore) : UrlStore :=
  match op with
  | .shorten gen fuel u now =>
    match shorten_url gen fuel u now st with
    | some (_, st2) => st2
    | none => st
  | .redirect code => (redirect_to_url code st).2
  | .delete code => (delete_url code st).2
  | .stats _ => st
  | .getAll => st

/-- The store reached by a sequence of operations from the freshly
initialised database. -/
def runOps (ops : List UrlOp) : UrlStore :=
  ops.foldl (fun st op => op.step st) emptyStore

/-- No two live rows share a `short_id`. -/
def codesNodup (st : UrlStore) : Prop :=
  (st.rows.map fun r => r.short_id).Nodup

instance (st : UrlStore) : Decidable (codesNodup st) :=
  inferInstanceAs (Decidable ((st.rows.map fun r : UrlRow => r.short_id).Nodup))

/-- No two live rows share a rowid, and every rowid is below the
AUTOINCREMENT counter (sqlite never reuses an AUTOINCREMENT id). -/
def idsOk (st : UrlStore) : Prop :=
  (st.rows.map fun r => r.id).Nodup ∧ ∀ r ∈ st.rows, r.id < st.nextId

/-- The store invariant every operation maintains: codes unique, rowids
unique and below the AUTOINCREMENT counter. -/
def StoreInv (st : UrlStore) : Prop := codesNodup st ∧ idsOk st

/-- The `clicks` value of the (first) row with rowid `i`, when live. -/
def clicksOf (st : UrlStore) (i : Nat) : Option Nat :=
  (st.rows.find? fun r => r.id == i).map fun r => r.clicks

/-- Is this operation the redirect (the only writer of `clicks`)? -/
def UrlOp.isRedirect : UrlOp → Bool
  | .redirect _ => true
  | _ => false

/-- A code of the shape `generate_short_id` produces: length 6, every
character from the 62-symbol alphabet. -/
def validCode (s : String) : Prop :=
  s.length = 6 ∧ ∀ c ∈ s.data, c ∈ characters

instance (s : String) : Decidable (validCode s) :=
  inferInstanceAs (Decidable (s.length = 6 ∧ ∀ c ∈ s.data, c ∈ characters))

/-- The candidate loop terminates on some fuel. -/
def probeTerminates (gen : Nat → String) (st : UrlStore) : Prop :=
  ∃ fuel, (probeLoop gen st 0 fuel).isSome

/-- Some length-6 code over the 62-symbol alphabet is unallocated. -/
def someCodeFree (st : UrlStore) : Prop :=
  ∃ c, validCode c ∧ hasCode st c = false

/-- A store holding the single code `aaaaaa`. -/
def stOneCode : UrlStore :=
  { rows := [{ id := 1, short_id := "aaaaaa", full_url := "http://e.com/a",
               created_at := 0, clicks := 0 }], nextId := 2 }

/-- A candidate stream that draws `aaaaaa` forever. -/
def constGen : Nat → String := fun _ => "aaaaaa"

/-- A candidate stream whose first `n` draws are the taken code
`aaaaaa` and whose later draws are the free code `aaaaab`. -/
def boundGen (n : Nat) : Nat → String :=
  fun i => if i < n then "aaaaaa" else "aaaaab"

/-- The row a concurrent request commits inside `shorten_url`'s
probe–insert window in the C3 scenario: it takes the code `abc123`. -/
def racedRow : UrlRow :=
  { id := 1, short_id := "abc123", full_url := "http://e.com/b",
    created_at := 0, clicks := 0 }

/-- One row of the to-do service's `tasks` table:
`id INTEGER PRIMARY KEY AUTOINCREMENT, title TEXT NOT NULL,
description TEXT, completed BOOLEAN NOT NULL DEFAULT 0`. -/
structure TodoTask where
  id : Nat
  title : String
  description : Option String
  completed : Bool
deriving DecidableEq, Repr

/-- The `TaskUpdate` pydantic model: every field optional, omitted
fields arrive as `None`. -/
structure TaskUpdate where
  title : Option String
  description : Option String
  completed : Option Bool
deriving DecidableEq, Repr

/-- The dynamic `UPDATE tasks SET ...` built by `update_task`
(lines 124–137): each field present (non-null) in the body is written,
each absent field is left as it was. -/
def applyUpdate (u : TaskUpdate) (t : TodoTask) : TodoTask :=
  { t with
    title := u.title.getD t.title,
    description := match u.description with
      | some d => some d
      | none => t.description,
    completed := u.completed.getD t.completed }

/-- `update_task` (PUT /items/\x7bitem_id\x7d, lines 112–149): select by
id (404 when absent); when at least one field is present, run the
dynamic `UPDATE ... WHERE id = ?` (which rewrites every row whose id
matches); re-select the row and return it.  The re-select coming back
empty would crash `dict(updated_task)` in the source (HTTP 500),
modelled as `serverError`. -/
def update_task (item_id : Nat) (u : TaskUpdate) (tasks : List TodoTask) :
    Except HTTPErr TodoTask × List TodoTask :=
  match tasks.find? (fun t => t.id == item_id) with
  | none => (.error .notFound, tasks)
  | some _ =>
    let tasks2 : List TodoTask :=
      if u.title.isSome || u.description.isSome || u.completed.isSome then
        tasks.map fun t => if t.id == item_id then applyUpdate u t else t
      else tasks
    match tasks2.find? (fun t => t.id == item_id) with
    | some t => (.ok t, tasks2)
    | none => (.error .serverError, tasks2)


/-! ## Helper lemmas about the candidate loop -/

/-- A candidate the loop returns passed its probe, and is one of the
drawn candidates. -/
theorem probeLoop_some (gen : Nat → String) (st : UrlStore) :
    ∀ fuel i c, probeLoop gen st i fuel = some c →
      hasCode st c = false ∧ ∃ j, c = gen j := by
  intro fuel
  induction fuel with
  | zero => intro i c h; simp [probeLoop] at h
  | succ f ih =>
    intro i c h
    rw [probeLoop] at h
    by_cases hc : hasCode st (gen i)
    · rw [if_pos hc] at h
      exact ih (i + 1) c h
    · rw [if_neg hc] at h
      cases h
      exact ⟨Bool.eq_false_iff.mpr hc, i, rfl⟩

/-- If every candidate drawn in the window is taken, the loop makes no
progress within that much fuel. -/
theorem probeLoop_none_of_taken (gen : Nat → String) (st : UrlStore) :
    ∀ fuel i, (∀ j, j < fuel → hasCode st (gen (i + j)) = true) →
      probeLoop gen st i fuel = none := by
  intro fuel
  induction fuel with
  | zero => intro i _; rfl
  | succ f ih =>
    intro i h
    rw [probeLoop]
    have h0 : hasCode st (gen i) = true := by
      have := h 0 (Nat.succ_pos f)
      simpa using this
    rw [if_pos h0]
    exact ih (i + 1) fun j hj => by
      have := h (j + 1) (Nat.succ_lt_succ hj)
      simpa [Nat.add_assoc, Nat.add_comm 1 j] using this

/-- When the draws at offsets `< k` are taken and the draw at offset `k`
is free, any fuel beyond `k` makes the loop exit with that draw. -/
theorem probeLoop_first_free (gen : Nat → String) (st : UrlStore) :
    ∀ fuel i k, (∀ j, j < k → hasCode st (gen (i + j)) = true) →
      hasCode st (gen (i + k)) = false → k < fuel →
      probeLoop gen st i fuel = some (gen (i + k)) := by
  intro fuel
  induction fuel with
  | zero => intro i k _ _ hk; exact absurd hk (Nat.not_lt_zero k)
  | succ f ih =>
    intro i k htaken hfree hk
    rw [probeLoop]
    cases k with
    | zero =>
      have : hasCode st (gen i) = false := by simpa using hfree
      rw [if_neg (by simp [this])]
      simp
    | succ k2 =>
      have h0 : hasCode st (gen i) = true := by
        have := htaken 0 (Nat.succ_pos k2)
        simpa using this
      rw [if_pos h0]
      have := ih (i + 1) k2
        (fun j hj => by
          have := htaken (j + 1) (Nat.succ_lt_succ hj)
          simpa [Nat.add_assoc, Nat.add_comm 1 j] using this)
        (by
          have : i + (k2 + 1) = i + 1 + k2 := by omega
          rw [this] at hfree
          exact hfree)
        (Nat.lt_of_succ_lt_succ hk)
      rw [this]
      have : i + 1 + k2 = i + (k2 + 1) := by omega
      rw [this]

/-! ## C6 -/

/-- C6 (amended): the candidate loop of `shorten_url` draws with no
upper bound on attempts — for every `n` there is a store and stream on
which it discards `n` candidates and still exits — and whenever the
drawn stream reaches a candidate that is not in the store, the loop
terminates and returns the first such candidate (which therefore passed
the probe).  Termination for every store with a free code does not hold
for every stream (see the counterexample). -/
theorem probeLoop_unbounded_first_free :
    (∀ (gen : Nat → String) (st : UrlStore) (k fuel : Nat),
      (∀ j, j < k → hasCode st (gen j) = true) → hasCode st (gen k) = false →
      k < fuel → probeLoop gen st 0 fuel = some (gen k)) ∧
    (∀ (gen : Nat → String) (st : UrlStore) (fuel : Nat) (c : String),
      probeLoop gen st 0 fuel = some c → hasCode st c = false) ∧
    (∀ n, probeLoop (boundGen n) stOneCode 0 n = none ∧
      probeLoop (boundGen n) stOneCode 0 (n + 1) = some "aaaaab") := by
  refine ⟨?_, ?_, ?_⟩
  · intro gen st k fuel htaken hfree hk
    have := probeLoop_first_free gen st fuel 0 k
      (fun j hj => by simpa using htaken j hj)
      (by simpa using hfree) hk
    simpa using this
  · intro gen st fuel c h
    exact (probeLoop_some gen st fuel 0 c h).1
  · intro n
    constructor
    · exact probeLoop_none_of_taken (boundGen n) stOneCode n 0
        (fun j hj => by
          simp only [boundGen, Nat.zero_add]
          rw [if_pos hj]
          decide)
    · have := probeLoop_first_free (boundGen n) stOneCode (n + 1) 0 n
        (fun j hj => by
          simp only [boundGen, Nat.zero_add]
          rw [if_pos hj]
          decide)
        (by
          simp only [boundGen, Nat.zero_add]
          rw [if_neg (Nat.lt_irrefl n)]
          decide)
        (Nat.lt_succ_self n)
      simpa [boundGen] using this

/-- C6 witness: with one code taken and a stream whose first draw is
free, one unit of fuel suffices and the free draw is returned. -/
theorem probeLoop_unbounded_first_free_witness :
    probeLoop (fun _ => "aaaaab") stOneCode 0 1 = some "aaaaab" :=
  probeLoop_unbounded_first_free.1 (fun _ => "aaaaab") stOneCode 0 1
    (fun j hj => absurd hj (Nat.not_lt_zero j)) (by decide) Nat.one_pos

/-- C6 counterexample: in a store where codes are free, a stream that
keeps drawing the one taken code never lets the loop exit, so
"terminates for every store state with an unallocated code" fails as
stated. -/
theorem probeLoop_not_terminating_cex :
    someCodeFree stOneCode ∧ ¬ probeTerminates constGen stOneCode := by
  constructor
  · exact ⟨"aaaaab", by decide, by decide⟩
  · rintro ⟨fuel, hsome⟩
    rw [probeLoop_none_of_taken constGen stOneCode fuel 0
      (fun j _ => by change hasCode stOneCode "aaaaaa" = true; decide)] at hsome
    simp at hsome

/-! ## C7 -/

/-- C7: every code `generate_short_id` produces has length exactly 6
with every character from the 62-symbol alphanumeric alphabet, and so
does the code `shorten_url` returns on the fresh-allocation path (when
the reuse lookup finds nothing). -/
theorem generate_short_id_valid :
    (∀ choice, validCode (generate_short_id choice)) ∧
    (∀ (choices : Nat → Fin 6 → Fin 62) fuel u now st resp st2,
      shorten_url (fun i => generate_short_id (choices i)) fuel u now st
        = some (resp, st2) →
      st.rows.find? (fun r => r.full_url == u) = none →
      validCode resp.short_id) := by
  have base : ∀ choice, validCode (generate_short_id choice) := by
    intro choice
    constructor
    · show (List.ofFn _).length = 6
      simp
    · intro c hc
      have hc2 : c ∈ List.ofFn
          (fun i => characters.get (Fin.cast (by decide) (choice i))) := hc
      rw [List.mem_ofFn] at hc2
      obtain ⟨i, hi⟩ := hc2
      rw [← hi]
      exact List.get_mem characters _ _
  refine ⟨base, ?_⟩
  intro choices fuel u now st resp st2 h hfind
  rw [shorten_url, hfind] at h
  cases hp : probeLoop (fun i => generate_short_id (choices i)) st 0 fuel with
  | none => rw [hp] at h; cases h
  | some code =>
    rw [hp] at h
    obtain ⟨_, j, hj⟩ :=
      probeLoop_some (fun i => generate_short_id (choices i)) st fuel 0 code hp
    cases h
    show validCode code
    rw [hj]
    exact base (choices j)

/-- C7 witness: a concrete all-`a` draw through `shorten_url` on the
empty store. -/
theorem generate_short_id_valid_witness : validCode "aaaaaa" :=
  generate_short_id_valid.2 (fun _ _ => ⟨0, by decide⟩) 1 "http://x" 0 emptyStore
    { short_id := "aaaaaa", short_url := "http://localhost:8001/" ++ "aaaaaa",
      full_url := "http://x", message := none }
    (insertRow "aaaaaa" "http://x" 0 emptyStore) (by decide) rfl

/-! ## C10 -/

/-- C10: `GET /all` returns a permutation of the live rows (every live
record, nothing else), arranged descending by `created_at`, and leaves
the store unchanged. -/
theorem get_all_urls_sorted (st : UrlStore) :
    (get_all_urls st).2 = st ∧ (get_all_urls st).1.Perm st.rows ∧
    List.Sorted createdGe (get_all_urls st).1 :=
  ⟨rfl, List.perm_insertionSort createdGe st.rows,
    List.sorted_insertionSort createdGe st.rows⟩

/-! ## C3 -/

/-- C3: when a concurrent request commits the candidate code between
`shorten_url`'s uniqueness probe and its `INSERT`, the insert's
`IntegrityError` propagates out unhandled (HTTP 500); `shorten_url`
does not restart the candidate loop. -/
theorem shorten_url_race_integrityError :
    shorten_url_raced (fun _ => "abc123") 1 "http://e.com/a" 0 racedRow
      emptyStore = some (.error .integrityError) := rfl

/-! ## Helper lemmas about uniqueness and lookup -/

/-- When one element fails `p`, occurs only at position `j`, and every
other element passes `p`, filtering by `p` is exactly dropping
position `j`. -/
theorem filter_eq_eraseIdx {α : Type} (p : α → Bool) :
    ∀ (l : List α) (j : Nat) (a : α), l[j]? = some a → p a = false →
      (∀ b ∈ l, p b = false → b = a) → (∀ k : Nat, k ≠ j → l[k]? ≠ some a) →
      l.filter p = l.eraseIdx j := by
  intro l
  induction l with
  | nil => intro j a hj _ _ _; simp at hj
  | cons x t ih =>
    intro j a hj hpa huniq honce
    cases j with
    | zero =>
      rw [List.getElem?_cons_zero] at hj
      have hxa : x = a := Option.some.inj hj
      have hpx : p x = false := by rw [hxa]; exact hpa
      rw [List.eraseIdx_cons_zero, List.filter_cons_of_neg (by simp [hpx])]
      rw [List.filter_eq_self]
      intro b hb
      by_contra hpb
      have hba : b = a := huniq b (List.mem_cons_of_mem x hb) (by simpa using hpb)
      obtain ⟨k, hk⟩ := List.mem_iff_getElem?.mp hb
      apply honce (k + 1) (Nat.succ_ne_zero k)
      rw [List.getElem?_cons_succ, hk, hba]
    | succ j2 =>
      rw [List.getElem?_cons_succ] at hj
      have hpx : p x = true := by
        by_contra hpx2
        have hxa : x = a := huniq x (List.mem_cons_self x t) (by simpa using hpx2)
        apply honce 0 (Ne.symm (Nat.succ_ne_zero j2))
        rw [List.getElem?_cons_zero, hxa]
      rw [List.eraseIdx_cons_succ, List.filter_cons_of_pos hpx]
      rw [ih j2 a hj hpa
        (fun b hb hpb => huniq b (List.mem_cons_of_mem x hb) hpb)
        (fun k hk => by
          have h2 := honce (k + 1) (fun he => hk (Nat.succ.inj he))
          rw [List.getElem?_cons_succ] at h2
          exact h2)]

/-- With `map f l` duplicate-free, positions carrying `f`-equal
elements coincide. -/
theorem nodup_map_getElem?_inj {α β : Type} {f : α → β} {l : List α}
    (h : (l.map f).Nodup) {j k : Nat} {a b : α}
    (hj : l[j]? = some a) (hk : l[k]? = some b) (he : f a = f b) : j = k := by
  have hja : j < l.length := by
    by_contra hx
    rw [List.getElem?_eq_none (Nat.le_of_not_lt hx)] at hj
    cases hj
  have hka : k < l.length := by
    by_contra hx
    rw [List.getElem?_eq_none (Nat.le_of_not_lt hx)] at hk
    cases hk
  rw [List.getElem?_eq_getElem hja] at hj
  rw [List.getElem?_eq_getElem hka] at hk
  have hj3 : l.get ⟨j, hja⟩ = a := by
    rw [List.get_eq_getElem]; exact Option.some.inj hj
  have hk3 : l.get ⟨k, hka⟩ = b := by
    rw [List.get_eq_getElem]; exact Option.some.inj hk
  have hinj := List.nodup_iff_injective_get.mp h
  have hj2 : j < (l.map f).length := by simpa using hja
  have hk2 : k < (l.map f).length := by simpa using hka
  have hmap : (l.map f).get ⟨j, hj2⟩ = (l.map f).get ⟨k, hk2⟩ := by
    rw [List.get_map, List.get_map, hj3]
    rw [show l.get ⟨k, hka⟩ = b from hk3]
    exact he
  have := hinj hmap
  simpa using this

/-! ## C4 -/

/-- C4: the redirect signals 404 exactly when no live row has the code,
leaving the store unchanged in that case; when the row with the code
exists (codes being unique), it returns that row's stored `full_url`
and increments that row's `clicks` by exactly 1, changing no other
position of the store. -/
theorem redirect_to_url_spec :
    (∀ code st, (∀ r ∈ st.rows, r.short_id ≠ code) →
      redirect_to_url code st = (.error .notFound, st)) ∧
    (∀ code st, (redirect_to_url code st).1 = .error .notFound →
      ∀ r ∈ st.rows, r.short_id ≠ code) ∧
    (∀ code st j r, codesNodup st → st.rows[j]? = some r → r.short_id = code →
      (redirect_to_url code st).1 = .ok r.full_url ∧
      (redirect_to_url code st).2.rows.length = st.rows.length ∧
      (redirect_to_url code st).2.rows[j]? = some { r with clicks := r.clicks + 1 } ∧
      ∀ k : Nat, k ≠ j → (redirect_to_url code st).2.rows[k]? = st.rows[k]?) := by
  refine ⟨?_, ?_, ?_⟩
  · intro code st h
    have hnone : st.rows.find? (fun x => x.short_id == code) = none :=
      List.find?_eq_none.mpr fun x hx => by simp [h x hx]
    simp [redirect_to_url, hnone]
  · intro code st h r hr heq
    have hsome : (st.rows.find? (fun x => x.short_id == code)).isSome :=
      List.find?_isSome.mpr ⟨r, hr, by simp [heq]⟩
    cases hf : st.rows.find? (fun x => x.short_id == code) with
    | none => rw [hf] at hsome; simp at hsome
    | some q => simp [redirect_to_url, hf] at h
  · intro code st j r hnd hj hcode
    have hnd2 : (st.rows.map fun x : UrlRow => x.short_id).Nodup := hnd
    have hmem : r ∈ st.rows := List.mem_iff_getElem?.mpr ⟨j, hj⟩
    have hsome : (st.rows.find? (fun x => x.short_id == code)).isSome :=
      List.find?_isSome.mpr ⟨r, hmem, by simp [hcode]⟩
    obtain ⟨q, hq⟩ := Option.isSome_iff_exists.mp hsome
    have hq2 : q.short_id = code := by
      have := List.find?_some hq
      simpa using this
    have hqmem : q ∈ st.rows := List.mem_of_find?_eq_some hq
    have hqr : q = r :=
      List.inj_on_of_nodup_map hnd hqmem hmem (by
        show q.short_id = r.short_id
        rw [hq2, hcode])
    subst hqr
    refine ⟨by simp [redirect_to_url, hq], ?_, ?_, ?_⟩
    · simp [redirect_to_url, hq]
    · have : (redirect_to_url code st).2.rows =
          st.rows.map fun x =>
            if x.short_id == code then { x with clicks := x.clicks + 1 } else x := by
        simp [redirect_to_url, hq]
      rw [this, List.getElem?_map, hj]
      simp [hcode]
    · intro k hk
      have : (redirect_to_url code st).2.rows =
          st.rows.map fun x =>
            if x.short_id == code then { x with clicks := x.clicks + 1 } else x := by
        simp [redirect_to_url, hq]
      rw [this, List.getElem?_map]
      cases hkx : st.rows[k]? with
      | none => rfl
      | some w =>
        have hwne : w.short_id ≠ code := by
          intro hw
          exact hk (nodup_map_getElem?_inj hnd2 hkx hj
            (by show w.short_id = q.short_id; rw [hw, hcode]))
        simp [hwne]

/-- C4 witness: redirecting through the one stored code returns its URL
and bumps its clicks from 0 to 1. -/
theorem redirect_to_url_spec_witness :
    (redirect_to_url "aaaaaa" stOneCode).1 = .ok "http://e.com/a" ∧
    (redirect_to_url "aaaaaa" stOneCode).2.rows[0]? =
      some { id := 1, short_id := "aaaaaa", full_url := "http://e.com/a",
             created_at := 0, clicks := 1 } :=
  have h := redirect_to_url_spec.2.2 "aaaaaa" stOneCode 0
    { id := 1, short_id := "aaaaaa", full_url := "http://e.com/a",
      created_at := 0, clicks := 0 }
    (by decide) rfl rfl
  ⟨h.1, h.2.2.1⟩

/-! ## C5 -/

/-- C5: deletion signals 404 and leaves the store unchanged when no row
has the code; when the row with the code exists (codes being unique),
it removes exactly that row, and a subsequent redirect of the same code
signals 404. -/
theorem delete_url_spec :
    (∀ code st, (∀ r ∈ st.rows, r.short_id ≠ code) →
      delete_url code st = (.error .notFound, st)) ∧
    (∀ code st j r, codesNodup st → st.rows[j]? = some r → r.short_id = code →
      (delete_url code st).1 = .ok "URL deleted successfully" ∧
      (delete_url code st).2.rows = st.rows.eraseIdx j ∧
      (redirect_to_url code (delete_url code st).2).1 = .error .notFound) := by
  constructor
  · intro code st h
    have hnone : st.rows.find? (fun x => x.short_id == code) = none :=
      List.find?_eq_none.mpr fun x hx => by simp [h x hx]
    simp [delete_url, hnone]
  · intro code st j r hnd hj hcode
    have hnd2 : (st.rows.map fun x : UrlRow => x.short_id).Nodup := hnd
    have hmem : r ∈ st.rows := List.mem_iff_getElem?.mpr ⟨j, hj⟩
    have hsome : (st.rows.find? (fun x => x.short_id == code)).isSome :=
      List.find?_isSome.mpr ⟨r, hmem, by simp [hcode]⟩
    obtain ⟨q, hq⟩ := Option.isSome_iff_exists.mp hsome
    have hrows2 : (delete_url code st).2.rows =
        st.rows.filter fun x => !(x.short_id == code) := by
      simp [delete_url, hq]
    refine ⟨by simp [delete_url, hq], ?_, ?_⟩
    · rw [hrows2]
      apply filter_eq_eraseIdx _ _ _ r hj
      · simp [hcode]
      · intro b hb hpb
        have hbc : b.short_id = code := by simpa using hpb
        exact List.inj_on_of_nodup_map hnd hb hmem (by
          show b.short_id = r.short_id
          rw [hbc, hcode])
      · intro k hk hkr
        exact hk (nodup_map_getElem?_inj hnd2 hkr hj rfl)
    · have hnone2 : (delete_url code st).2.rows.find?
          (fun x => x.short_id == code) = none := by
        rw [hrows2]
        apply List.find?_eq_none.mpr
        intro x hx
        have := (List.mem_filter.mp hx).2
        simp at this
        simp [this]
      simp [redirect_to_url, hnone2]

/-- C5 witness: deleting the one stored code succeeds, empties the
store, and a subsequent redirect of that code 404s. -/
theorem delete_url_spec_witness :
    (delete_url "aaaaaa" stOneCode).2.rows = stOneCode.rows.eraseIdx 0 ∧
    (redirect_to_url "aaaaaa" (delete_url "aaaaaa" stOneCode).2).1 =
      .error .notFound :=
  have h := delete_url_spec.2 "aaaaaa" stOneCode 0
    { id := 1, short_id := "aaaaaa", full_url := "http://e.com/a",
      created_at := 0, clicks := 0 }
    (by decide) rfl rfl
  ⟨h.2.1, h.2.2⟩

/-! ## C9 -/

/-- C9: `PUT /items/\x7bid\x7d` signals 404 when no task has the id and
changes nothing; when the task exists (ids being unique, as the primary
key guarantees), it writes exactly the non-null fields of the body into
that task, leaves the task's omitted fields and every other position of
the table unchanged, and returns the full updated record. -/
theorem update_task_spec :
    (∀ item_id u tasks, (∀ t ∈ tasks, t.id ≠ item_id) →
      update_task item_id u tasks = (.error .notFound, tasks)) ∧
    (∀ item_id u tasks j t, (tasks.map fun x : TodoTask => x.id).Nodup →
      tasks[j]? = some t → t.id = item_id →
      (update_task item_id u tasks).1 = .ok (applyUpdate u t) ∧
      (update_task item_id u tasks).2.length = tasks.length ∧
      (update_task item_id u tasks).2[j]? = some (applyUpdate u t) ∧
      (∀ k : Nat, k ≠ j → (update_task item_id u tasks).2[k]? = tasks[k]?) ∧
      (applyUpdate u t).id = t.id ∧
      (∀ s, u.title = some s → (applyUpdate u t).title = s) ∧
      (u.title = none → (applyUpdate u t).title = t.title) ∧
      (∀ s, u.description = some s → (applyUpdate u t).description = some s) ∧
      (u.description = none → (applyUpdate u t).description = t.description) ∧
      (∀ b, u.completed = some b → (applyUpdate u t).completed = b) ∧
      (u.completed = none → (applyUpdate u t).completed = t.completed)) := by
  constructor
  · intro item_id u tasks h
    have hnone : tasks.find? (fun x => x.id == item_id) = none :=
      List.find?_eq_none.mpr fun x hx => by simp [h x hx]
    simp [update_task, hnone]
  · intro item_id u tasks j t hnd hj hid
    have hnd2 : (tasks.map fun x : TodoTask => x.id).Nodup := hnd
    have hmem : t ∈ tasks := List.mem_iff_getElem?.mpr ⟨j, hj⟩
    have hsome : (tasks.find? (fun x => x.id == item_id)).isSome :=
      List.find?_isSome.mpr ⟨t, hmem, by simp [hid]⟩
    obtain ⟨q, hq⟩ := Option.isSome_iff_exists.mp hsome
    have hq2 : q.id = item_id := by
      have := List.find?_some hq
      simpa using this
    have hqt : q = t :=
      List.inj_on_of_nodup_map hnd2 (List.mem_of_find?_eq_some hq) hmem (by
        show q.id = t.id
        rw [hq2, hid])
    subst hqt
    have hfields : (applyUpdate u q).id = q.id ∧
        (∀ s, u.title = some s → (applyUpdate u q).title = s) ∧
        (u.title = none → (applyUpdate u q).title = q.title) ∧
        (∀ s, u.description = some s → (applyUpdate u q).description = some s) ∧
        (u.description = none → (applyUpdate u q).description = q.description) ∧
        (∀ b, u.completed = some b → (applyUpdate u q).completed = b) ∧
        (u.completed = none → (applyUpdate u q).completed = q.completed) := by
      refine ⟨rfl, ?_, ?_, ?_, ?_, ?_, ?_⟩
      · intro s hs; simp [applyUpdate, hs]
      · intro hs; simp [applyUpdate, hs]
      · intro s hs; simp [applyUpdate, hs]
      · intro hs; simp [applyUpdate, hs]
      · intro b hb; simp [applyUpdate, hb]
      · intro hb; simp [applyUpdate, hb]
    cases hcond : (u.title.isSome || u.description.isSome || u.completed.isSome) with
    | true =>
      have hpf : ((fun x : TodoTask => x.id == item_id) ∘
          fun x => if x.id == item_id then applyUpdate u x else x) =
          fun x : TodoTask => x.id == item_id := by
        funext x
        by_cases hx : (x.id == item_id) = true
        · show ((if x.id == item_id then applyUpdate u x else x).id == item_id)
            = (x.id == item_id)
          rw [if_pos hx]
          show (x.id == item_id) = (x.id == item_id)
          rfl
        · show ((if x.id == item_id then applyUpdate u x else x).id == item_id)
            = (x.id == item_id)
          rw [if_neg hx]
      have hqq : (q.id == item_id) = true := by
        rw [hq2]
        exact beq_self_eq_true item_id
      have hfind2 : (tasks.map fun x =>
          if x.id == item_id then applyUpdate u x else x).find?
          (fun x => x.id == item_id) = some (applyUpdate u q) := by
        rw [List.find?_map, hpf, hq]
        show some (if q.id == item_id then applyUpdate u q else q) = _
        rw [if_pos hqq]
      have hif : (if u.title.isSome || u.description.isSome || u.completed.isSome
          then tasks.map fun x => if x.id == item_id then applyUpdate u x else x
          else tasks) =
          tasks.map fun x => if x.id == item_id then applyUpdate u x else x := by
        rw [hcond]
        simp
      have hres : update_task item_id u tasks =
          (.ok (applyUpdate u q),
           tasks.map fun x => if x.id == item_id then applyUpdate u x else x) := by
        simp only [update_task, hq, hif, hfind2]
      refine ⟨?_, ?_, ?_, ?_, hfields⟩
      · rw [hres]
      · rw [hres]
        exact List.length_map tasks _
      · rw [hres]
        show (tasks.map fun x =>
          if x.id == item_id then applyUpdate u x else x)[j]? = _
        rw [List.getElem?_map, hj]
        show some (if q.id == item_id then applyUpdate u q else q) = _
        rw [if_pos hqq]
      · intro k hk
        rw [hres]
        show (tasks.map fun x =>
          if x.id == item_id then applyUpdate u x else x)[k]? = tasks[k]?
        rw [List.getElem?_map]
        cases hkx : tasks[k]? with
        | none => rfl
        | some w =>
          have hwne : ¬ (w.id == item_id) = true := by
            intro hw
            apply hk
            apply nodup_map_getElem?_inj hnd2 hkx hj
            show w.id = q.id
            rw [hq2]
            simpa using hw
          show some (if w.id == item_id then applyUpdate u w else w) = some w
          rw [if_neg hwne]
    | false =>
      have hcs : u.title = none ∧ u.description = none ∧ u.completed = none := by
        constructor
        · cases hu : u.title with
          | none => rfl
          | some s => rw [hu] at hcond; simp at hcond
        constructor
        · cases hu : u.description with
          | none => rfl
          | some s => rw [hu] at hcond; simp at hcond
        · cases hu : u.completed with
          | none => rfl
          | some b => rw [hu] at hcond; simp at hcond
      have happ : applyUpdate u q = q := by
        obtain ⟨h1, h2, h3⟩ := hcs
        simp [applyUpdate, h1, h2, h3]
      have hres : update_task item_id u tasks = (.ok q, tasks) := by
        simp [update_task, hq, hcond]
      refine ⟨?_, ?_, ?_, ?_, hfields⟩
      · rw [hres, happ]
      · rw [hres]
      · rw [hres, happ]; exact hj
      · intro k _; rw [hres]

/-- C9 witness: updating title and completed of the one stored task,
leaving description omitted. -/
theorem update_task_spec_witness :
    (update_task 1
        { title := some "b", description := none, completed := some true }
        [{ id := 1, title := "a", description := none, completed := false }]).1 =
      .ok { id := 1, title := "b", description := none, completed := true } ∧
    (update_task 1
        { title := some "b", description := none, completed := some true }
        [{ id := 1, title := "a", description := none, completed := false }]).2[0]? =
      some { id := 1, title := "b", description := none, completed := true } :=
  have h := update_task_spec.2 1
    { title := some "b", description := none, completed := some true }
    [{ id := 1, title := "a", description := none, completed := false }] 0
    { id := 1, title := "a", description := none, completed := false }
    (by decide) rfl rfl
  ⟨h.1, h.2.2.1⟩

/-! ## Case analysis of a successful allocation -/

/-- A successful `shorten_url` call either reused an existing row's code
and left the store alone, or committed a freshly probed code. -/
theorem shorten_url_cases (gen : Nat → String) (fuel : Nat) (u : String)
    (now : Nat) (st : UrlStore) (resp : ShortenResp) (st2 : UrlStore)
    (h : shorten_url gen fuel u now st = some (resp, st2)) :
    (∃ r, st.rows.find? (fun x => x.full_url == u) = some r ∧
      st2 = st ∧ resp.short_id = r.short_id) ∨
    (∃ code, st.rows.find? (fun x => x.full_url == u) = none ∧
      hasCode st code = false ∧
      st2 = insertRow code u now st ∧ resp.short_id = code) := by
  cases hf : st.rows.find? (fun x => x.full_url == u) with
  | some r =>
    left
    simp only [shorten_url, hf] at h
    injection h with hp
    injection hp with h1 h2
    refine ⟨r, rfl, h2.symm, ?_⟩
    rw [← h1]
  | none =>
    right
    simp only [shorten_url, hf] at h
    cases hp : probeLoop gen st 0 fuel with
    | none => rw [hp] at h; cases h
    | some code =>
      rw [hp] at h
      injection h with hp2
      injection hp2 with h1 h2
      refine ⟨code, rfl, (probeLoop_some gen st fuel 0 code hp).1,
        h2.symm, ?_⟩
      rw [← h1]

/-! ## C1 -/

/-- C1: when a row with the requested URL already exists, `POST
/shorten` returns its code at once and the store is unchanged; hence a
second `allocate(u)` right after any successful first one returns the
same code as the first and creates no record. -/
theorem shorten_url_idempotent :
    (∀ gen fuel u now st, (∃ r ∈ st.rows, r.full_url = u) →
      ∃ r, r ∈ st.rows ∧ r.full_url = u ∧
        shorten_url gen fuel u now st =
          some ({ short_id := r.short_id,
                  short_url := "http://localhost:8001/" ++ r.short_id,
                  full_url := u, message := some "URL already exists" }, st)) ∧
    (∀ gen fuel u now st resp1 st1,
      shorten_url gen fuel u now st = some (resp1, st1) →
      ∀ gen2 fuel2 now2, ∃ resp2,
        shorten_url gen2 fuel2 u now2 st1 = some (resp2, st1) ∧
        resp2.short_id = resp1.short_id) := by
  constructor
  · intro gen fuel u now st h
    obtain ⟨r0, hr0, hu0⟩ := h
    have hsome : (st.rows.find? (fun x => x.full_url == u)).isSome :=
      List.find?_isSome.mpr ⟨r0, hr0, by simp [hu0]⟩
    obtain ⟨q, hq⟩ := Option.isSome_iff_exists.mp hsome
    have hqu : q.full_url = u := by
      have := List.find?_some hq
      simpa using this
    refine ⟨q, List.mem_of_find?_eq_some hq, hqu, ?_⟩
    simp only [shorten_url, hq]
  · intro gen fuel u now st resp1 st1 h gen2 fuel2 now2
    rcases shorten_url_cases gen fuel u now st resp1 st1 h with
      ⟨r, hf, hst, hsid⟩ | ⟨code, hf, _, hst, hsid⟩
    · subst hst
      refine ⟨{ short_id := r.short_id,
                short_url := "http://localhost:8001/" ++ r.short_id,
                full_url := u, message := some "URL already exists" },
              ?_, by rw [hsid]⟩
      simp only [shorten_url, hf]
    · subst hst
      have hfind1 : (insertRow code u now st).rows.find?
          (fun x => x.full_url == u) =
          some { id := st.nextId, short_id := code, full_url := u,
                 created_at := now, clicks := 0 } := by
        show (st.rows ++ [_]).find? _ = _
        rw [List.find?_append, hf]
        simp
      refine ⟨{ short_id := code,
                short_url := "http://localhost:8001/" ++ code,
                full_url := u, message := some "URL already exists" },
              ?_, by rw [hsid]⟩
      simp only [shorten_url, hfind1]

/-- C1 witness: allocating `http://x` twice through a constant draw
stream; the second call returns the first call's code with the store
untouched. -/
theorem shorten_url_idempotent_witness :
    ∃ resp2, shorten_url constGen 1 "http://x" 7
        (insertRow "aaaaaa" "http://x" 0 emptyStore) =
        some (resp2, insertRow "aaaaaa" "http://x" 0 emptyStore) ∧
      resp2.short_id = "aaaaaa" :=
  shorten_url_idempotent.2 constGen 1 "http://x" 0 emptyStore
    { short_id := "aaaaaa", short_url := "http://localhost:8001/" ++ "aaaaaa",
      full_url := "http://x", message := none }
    (insertRow "aaaaaa" "http://x" 0 emptyStore) rfl constGen 1 7

/-! ## The store invariant -/

/-- The redirect's row update keeps every `short_id`. -/
theorem redirect_comp_short (code : String) :
    ((fun r : UrlRow => r.short_id) ∘ fun q : UrlRow =>
      if q.short_id == code then { q with clicks := q.clicks + 1 } else q) =
    fun r : UrlRow => r.short_id := by
  funext q
  by_cases hq : (q.short_id == code) = true
  · show (if q.short_id == code
      then { q with clicks := q.clicks + 1 } else q).short_id = q.short_id
    rw [if_pos hq]
  · show (if q.short_id == code
      then { q with clicks := q.clicks + 1 } else q).short_id = q.short_id
    rw [if_neg hq]

/-- The redirect's row update keeps every rowid. -/
theorem redirect_comp_id (code : String) :
    ((fun r : UrlRow => r.id) ∘ fun q : UrlRow =>
      if q.short_id == code then { q with clicks := q.clicks + 1 } else q) =
    fun r : UrlRow => r.id := by
  funext q
  by_cases hq : (q.short_id == code) = true
  · show (if q.short_id == code
      then { q with clicks := q.clicks + 1 } else q).id = q.id
    rw [if_pos hq]
  · show (if q.short_id == code
      then { q with clicks := q.clicks + 1 } else q).id = q.id
    rw [if_neg hq]

/-- The fresh database satisfies the invariant. -/
theorem storeInv_empty : StoreInv emptyStore := by
  refine ⟨?_, ?_, ?_⟩ <;> simp [codesNodup, idsOk, emptyStore]

/-- Committing a code that passed the probe preserves the invariant. -/
theorem storeInv_insertRow (code u : String) (now : Nat) (st : UrlStore)
    (hfree : hasCode st code = false) (hinv : StoreInv st) :
    StoreInv (insertRow code u now st) := by
  obtain ⟨hcodes, hids, hbound⟩ := hinv
  have hfree2 : ∀ r ∈ st.rows, ¬ r.short_id = code := by
    intro r hr hrc
    have : st.rows.any (fun x => x.short_id == code) = true :=
      List.any_eq_true.mpr ⟨r, hr, by simp [hrc]⟩
    rw [hasCode] at hfree
    rw [this] at hfree
    cases hfree
  refine ⟨?_, ?_, ?_⟩
  · show ((st.rows ++ [({ id := st.nextId, short_id := code, full_url := u, created_at := now, clicks := 0 } : UrlRow)]).map
        fun r : UrlRow => r.short_id).Nodup
    rw [List.map_append, List.nodup_append]
    refine ⟨hcodes, List.nodup_singleton _, ?_⟩
    intro a ha hb
    have hac : a = code := by simpa using hb
    rw [List.mem_map] at ha
    obtain ⟨r, hr, hrs⟩ := ha
    exact hfree2 r hr (by rw [hrs, hac])
  · show ((st.rows ++ [({ id := st.nextId, short_id := code, full_url := u, created_at := now, clicks := 0 } : UrlRow)]).map
        fun r : UrlRow => r.id).Nodup
    rw [List.map_append, List.nodup_append]
    refine ⟨hids, List.nodup_singleton _, ?_⟩
    intro a ha hb
    have han : a = st.nextId := by simpa using hb
    rw [List.mem_map] at ha
    obtain ⟨r, hr, hrs⟩ := ha
    have := hbound r hr
    rw [hrs, han] at this
    exact Nat.lt_irrefl _ this
  · intro r hr
    have hr2 : r ∈ st.rows ++ [({ id := st.nextId, short_id := code, full_url := u, created_at := now, clicks := 0 } : UrlRow)] := hr
    show r.id < st.nextId + 1
    rw [List.mem_append] at hr2
    cases hr2 with
    | inl h2 =>
      exact Nat.lt_trans (hbound r h2) (Nat.lt_succ_self _)
    | inr h2 =>
      have : r = { id := st.nextId, short_id := code, full_url := u,
                   created_at := now, clicks := 0 } := by simpa using h2
      rw [this]
      exact Nat.lt_succ_self _

/-- Every operation preserves the invariant. -/
theorem storeInv_step (op : UrlOp) (st : UrlStore) (hinv : StoreInv st) :
    StoreInv (op.step st) := by
  cases op with
  | shorten gen fuel u now =>
    cases hres : shorten_url gen fuel u now st with
    | none => simp only [UrlOp.step, hres]; exact hinv
    | some p =>
      obtain ⟨resp, st2⟩ := p
      simp only [UrlOp.step, hres]
      rcases shorten_url_cases gen fuel u now st resp st2 hres with
        ⟨r, _, hst, _⟩ | ⟨code, _, hfree, hst, _⟩
      · rw [hst]; exact hinv
      · rw [hst]; exact storeInv_insertRow code u now st hfree hinv
  | redirect code =>
    cases hf : st.rows.find? (fun r => r.short_id == code) with
    | none => simp only [UrlOp.step, redirect_to_url, hf]; exact hinv
    | some r =>
      simp only [UrlOp.step, redirect_to_url, hf]
      obtain ⟨hcodes, hids, hbound⟩ := hinv
      refine ⟨?_, ?_, ?_⟩
      · show ((st.rows.map fun q : UrlRow =>
            if q.short_id == code then { q with clicks := q.clicks + 1 }
            else q).map fun r : UrlRow => r.short_id).Nodup
        rw [List.map_map, redirect_comp_short]
        exact hcodes
      · show ((st.rows.map fun q : UrlRow =>
            if q.short_id == code then { q with clicks := q.clicks + 1 }
            else q).map fun r : UrlRow => r.id).Nodup
        rw [List.map_map, redirect_comp_id]
        exact hids
      · intro r2 hr2
        rw [List.mem_map] at hr2
        obtain ⟨q, hq, hfq⟩ := hr2
        have hqid : r2.id = q.id := by
          rw [← hfq]
          by_cases hqc : (q.short_id == code) = true
          · show (if q.short_id == code
              then { q with clicks := q.clicks + 1 } else q).id = q.id
            rw [if_pos hqc]
          · show (if q.short_id == code
              then { q with clicks := q.clicks + 1 } else q).id = q.id
            rw [if_neg hqc]
        rw [hqid]
        exact hbound q hq
  | delete code =>
    cases hf : st.rows.find? (fun r => r.short_id == code) with
    | none => simp only [UrlOp.step, delete_url, hf]; exact hinv
    | some r =>
      simp only [UrlOp.step, delete_url, hf]
      obtain ⟨hcodes, hids, hbound⟩ := hinv
      refine ⟨?_, ?_, ?_⟩
      · exact List.Nodup.sublist
          (List.Sublist.map _ (List.filter_sublist _)) hcodes
      · exact List.Nodup.sublist
          (List.Sublist.map _ (List.filter_sublist _)) hids
      · intro r2 hr2
        exact hbound r2 (List.mem_filter.mp hr2).1
  | stats c => exact hinv
  | getAll => exact hinv

/-- The invariant holds along any run, whatever the starting point
satisfying it. -/
theorem runOps_inv_aux : ∀ (ops : List UrlOp) (st : UrlStore), StoreInv st →
    StoreInv (ops.foldl (fun s op => op.step s) st) := by
  intro ops
  induction ops with
  | nil => intro st h; exact h
  | cons op rest ih =>
    intro st h
    exact ih (op.step st) (storeInv_step op st h)

/-! ## C2 -/

/-- C2: in every store reachable from the fresh database by a sequence
of operations, no two live rows share a `short_id`. -/
theorem runOps_codesNodup (ops : List UrlOp) : codesNodup (runOps ops) :=
  (runOps_inv_aux ops emptyStore storeInv_empty).1

/-! ## Click accounting -/

/-- The three click facts are immediate when the operation left the
store as it was. -/
theorem clicks_triple_of_eq (st st2 : UrlStore) (he : st2 = st) :
    (∀ i n : Nat, clicksOf st i = none → clicksOf st2 i = some n → n = 0) ∧
    (∀ i n n2 : Nat, clicksOf st i = some n → clicksOf st2 i = some n2 → n ≤ n2) ∧
    (∀ i n n2 : Nat, clicksOf st i = some n → clicksOf st2 i = some n2 → n2 = n) := by
  subst he
  refine ⟨?_, ?_, ?_⟩
  · intro i n h1 h2
    rw [h1] at h2
    cases h2
  · intro i n n2 h1 h2
    rw [h1] at h2
    exact Nat.le_of_eq (Option.some.inj h2)
  · intro i n n2 h1 h2
    rw [h1] at h2
    exact (Option.some.inj h2).symm

/-- How `clicksOf` reads through a freshly committed row. -/
theorem clicksOf_insertRow (code u : String) (now : Nat) (st : UrlStore) (i : Nat) :
    clicksOf (insertRow code u now st) i = clicksOf st i ∨
    (clicksOf st i = none ∧
      (clicksOf (insertRow code u now st) i = some 0 ∨
       clicksOf (insertRow code u now st) i = none)) := by
  cases hf : st.rows.find? (fun r => r.id == i) with
  | some q =>
    left
    show ((st.rows ++ [({ id := st.nextId, short_id := code, full_url := u, created_at := now, clicks := 0 } : UrlRow)]).find?
      (fun r => r.id == i)).map (fun r => r.clicks) =
      (st.rows.find? (fun r => r.id == i)).map (fun r => r.clicks)
    rw [List.find?_append, hf, Option.or_some]
  | none =>
    right
    refine ⟨by show (st.rows.find? (fun r => r.id == i)).map (fun r => r.clicks) = none; rw [hf]; rfl, ?_⟩
    have h2 : clicksOf (insertRow code u now st) i =
        ([({ id := st.nextId, short_id := code, full_url := u, created_at := now, clicks := 0 } : UrlRow)].find?
          (fun r => r.id == i)).map (fun r => r.clicks) := by
      show ((st.rows ++ [({ id := st.nextId, short_id := code, full_url := u, created_at := now, clicks := 0 } : UrlRow)]).find?
        (fun r => r.id == i)).map (fun r => r.clicks) = _
      rw [List.find?_append, hf, Option.none_or]
    by_cases hp : (st.nextId == i) = true
    · left
      rw [h2, List.find?_singleton]
      show (if (st.nextId == i) = true then _ else none).map _ = some 0
      rw [if_pos hp]
      rfl
    · right
      rw [h2, List.find?_singleton]
      show (if (st.nextId == i) = true then _ else none).map _ = none
      rw [if_neg hp]
      rfl

/-- How `clicksOf` reads through the redirect's row update. -/
theorem clicksOf_redirect_map (code : String) (st : UrlStore) (i : Nat) :
    clicksOf { st with rows := st.rows.map fun q =>
        if q.short_id == code then { q with clicks := q.clicks + 1 } else q } i =
    (st.rows.find? fun x => x.id == i).map
      (fun q => (if q.short_id == code
        then { q with clicks := q.clicks + 1 } else q).clicks) := by
  show ((st.rows.map fun q =>
      if q.short_id == code then { q with clicks := q.clicks + 1 } else q).find?
      (fun r => r.id == i)).map (fun r => r.clicks) = _
  rw [List.find?_map]
  have hpc : ((fun x : UrlRow => x.id == i) ∘ fun q =>
      if q.short_id == code then { q with clicks := q.clicks + 1 } else q) =
      fun x : UrlRow => x.id == i := by
    funext q
    have hq : (if q.short_id == code
        then { q with clicks := q.clicks + 1 } else q).id = q.id :=
      congrFun (redirect_comp_id code) q
    show ((if q.short_id == code
      then { q with clicks := q.clicks + 1 } else q).id == i) = (q.id == i)
    rw [hq]
  rw [hpc, Option.map_map]
  rfl

/-- The AUTOINCREMENT counter never decreases. -/
theorem step_nextId_le (op : UrlOp) (st : UrlStore) :
    st.nextId ≤ (op.step st).nextId := by
  cases op with
  | shorten gen fuel u now =>
    cases hres : shorten_url gen fuel u now st with
    | none => simp only [UrlOp.step, hres]; exact Nat.le_refl _
    | some p =>
      obtain ⟨resp, st2⟩ := p
      simp only [UrlOp.step, hres]
      rcases shorten_url_cases gen fuel u now st resp st2 hres with
        ⟨_, _, hst, _⟩ | ⟨code, _, _, hst, _⟩
      · rw [hst]
      · rw [hst]
        exact Nat.le_succ _
  | redirect code =>
    cases hf : st.rows.find? (fun r => r.short_id == code) with
    | none => simp only [UrlOp.step, redirect_to_url, hf]; exact Nat.le_refl _
    | some r => simp only [UrlOp.step, redirect_to_url, hf]; exact Nat.le_refl _
  | delete code =>
    cases hf : st.rows.find? (fun r => r.short_id == code) with
    | none => simp only [UrlOp.step, delete_url, hf]; exact Nat.le_refl _
    | some r => simp only [UrlOp.step, delete_url, hf]; exact Nat.le_refl _
  | stats c => exact Nat.le_refl _
  | getAll => exact Nat.le_refl _

/-- A rowid below the counter that is dead stays dead across one
operation (AUTOINCREMENT never hands it out again). -/
theorem clicksOf_none_step (op : UrlOp) (st : UrlStore) (i : Nat)
    (hlt : i < st.nextId) (hnone : clicksOf st i = none) :
    clicksOf (op.step st) i = none := by
  have hfnone : st.rows.find? (fun r => r.id == i) = none := by
    have h1 : (st.rows.find? (fun r => r.id == i)).map (fun r => r.clicks) = none := hnone
    exact Option.map_eq_none'.mp h1
  cases op with
  | shorten gen fuel u now =>
    cases hres : shorten_url gen fuel u now st with
    | none => simp only [UrlOp.step, hres]; exact hnone
    | some p =>
      obtain ⟨resp, st2⟩ := p
      simp only [UrlOp.step, hres]
      rcases shorten_url_cases gen fuel u now st resp st2 hres with
        ⟨_, _, hst, _⟩ | ⟨code, _, _, hst, _⟩
      · rw [hst]; exact hnone
      · rw [hst]
        show ((st.rows ++ [({ id := st.nextId, short_id := code, full_url := u, created_at := now, clicks := 0 } : UrlRow)]).find?
          (fun r => r.id == i)).map (fun r => r.clicks) = none
        rw [List.find?_append, hfnone, Option.none_or, List.find?_singleton]
        have hne : (st.nextId == i) = false := by
          simp only [beq_eq_false_iff_ne, ne_eq]
          intro he
          rw [he] at hlt
          exact Nat.lt_irrefl i hlt
        show (if (st.nextId == i) = true then _ else none).map _ = none
        rw [hne]
        rfl
  | redirect code =>
    cases hf : st.rows.find? (fun r => r.short_id == code) with
    | none => simp only [UrlOp.step, redirect_to_url, hf]; exact hnone
    | some r =>
      simp only [UrlOp.step, redirect_to_url, hf]
      rw [clicksOf_redirect_map, hfnone]
      rfl
  | delete code =>
    cases hf : st.rows.find? (fun r => r.short_id == code) with
    | none => simp only [UrlOp.step, delete_url, hf]; exact hnone
    | some r =>
      simp only [UrlOp.step, delete_url, hf]
      cases hff : (st.rows.filter fun r => !(r.short_id == code)).find?
          (fun r => r.id == i) with
      | none =>
        show ((st.rows.filter fun r => !(r.short_id == code)).find?
          (fun r => r.id == i)).map (fun r => r.clicks) = none
        rw [hff]
        rfl
      | some q =>
        have hq1 : q ∈ st.rows :=
          (List.mem_filter.mp (List.mem_of_find?_eq_some hff)).1
        have hq2 := List.find?_some hff
        have := List.find?_eq_none.mp hfnone q hq1
        exact absurd hq2 this
  | stats c => exact hnone
  | getAll => exact hnone

/-- A dead rowid below the counter stays dead along any run. -/
theorem clicksOf_none_run (more : List UrlOp) : ∀ (st : UrlStore) (i : Nat),
    i < st.nextId → clicksOf st i = none →
    clicksOf (more.foldl (fun s op => op.step s) st) i = none := by
  induction more with
  | nil => intro st i _ h; exact h
  | cons op rest ih =>
    intro st i hlt hnone
    exact ih (op.step st) i (Nat.lt_of_lt_of_le hlt (step_nextId_le op st))
      (clicksOf_none_step op st i hlt hnone)

/-- Per-operation click facts: creation at 0, single-step monotonicity,
and the frame property for everything but the redirect. -/
theorem clicksOf_step (op : UrlOp) (st : UrlStore) (hinv : StoreInv st) :
    (∀ i n : Nat, clicksOf st i = none →
      clicksOf (op.step st) i = some n → n = 0) ∧
    (∀ i n n2 : Nat, clicksOf st i = some n →
      clicksOf (op.step st) i = some n2 → n ≤ n2) ∧
    (op.isRedirect = false → ∀ i n n2 : Nat, clicksOf st i = some n →
      clicksOf (op.step st) i = some n2 → n2 = n) := by
  obtain ⟨hcodes, hids, hbound⟩ := hinv
  have hids2 : (st.rows.map fun x : UrlRow => x.id).Nodup := hids
  cases op with
  | shorten gen fuel u now =>
    cases hres : shorten_url gen fuel u now st with
    | none =>
      have hst : (UrlOp.shorten gen fuel u now).step st = st := by
        simp only [UrlOp.step, hres]
      have h3 := clicks_triple_of_eq st _ hst
      exact ⟨h3.1, h3.2.1, fun _ => h3.2.2⟩
    | some p =>
      obtain ⟨resp, st2⟩ := p
      have hst : (UrlOp.shorten gen fuel u now).step st = st2 := by
        simp only [UrlOp.step, hres]
      rcases shorten_url_cases gen fuel u now st resp st2 hres with
        ⟨_, _, hst2, _⟩ | ⟨code, _, _, hst2, _⟩
      · have h3 := clicks_triple_of_eq st _ (hst.trans hst2)
        exact ⟨h3.1, h3.2.1, fun _ => h3.2.2⟩
      · rw [hst, hst2]
        have key : ∀ i n n2 : Nat, clicksOf st i = some n →
            clicksOf (insertRow code u now st) i = some n2 → n2 = n := by
          intro i n n2 h1 h2
          rcases clicksOf_insertRow code u now st i with heq | ⟨hnone, _⟩
          · rw [heq, h1] at h2
            exact (Option.some.inj h2).symm
          · rw [h1] at hnone
            cases hnone
        refine ⟨?_, ?_, fun _ => key⟩
        · intro i n h1 h2
          rcases clicksOf_insertRow code u now st i with heq | ⟨_, hor⟩
          · rw [heq, h1] at h2
            cases h2
          · cases hor with
            | inl hz => rw [hz] at h2; exact (Option.some.inj h2).symm
            | inr hn => rw [hn] at h2; cases h2
        · intro i n n2 h1 h2
          exact Nat.le_of_eq (key i n n2 h1 h2).symm
  | redirect code =>
    refine ⟨?_, ?_, fun hfalse => by simp [UrlOp.isRedirect] at hfalse⟩
    · intro i n h1 h2
      cases hf : st.rows.find? (fun r => r.short_id == code) with
      | none =>
        have hst : (UrlOp.redirect code).step st = st := by
          simp only [UrlOp.step, redirect_to_url, hf]
        rw [hst, h1] at h2
        cases h2
      | some r =>
        have hst : (UrlOp.redirect code).step st =
            { st with rows := st.rows.map fun q =>
              if q.short_id == code then { q with clicks := q.clicks + 1 }
              else q } := by
          simp only [UrlOp.step, redirect_to_url, hf]
        rw [hst, clicksOf_redirect_map] at h2
        have hfnone : st.rows.find? (fun r => r.id == i) = none :=
          Option.map_eq_none'.mp h1
        rw [hfnone] at h2
        cases h2
    · intro i n n2 h1 h2
      cases hf : st.rows.find? (fun r => r.short_id == code) with
      | none =>
        have hst : (UrlOp.redirect code).step st = st := by
          simp only [UrlOp.step, redirect_to_url, hf]
        rw [hst, h1] at h2
        exact Nat.le_of_eq (Option.some.inj h2)
      | some r =>
        have hst : (UrlOp.redirect code).step st =
            { st with rows := st.rows.map fun q =>
              if q.short_id == code then { q with clicks := q.clicks + 1 }
              else q } := by
          simp only [UrlOp.step, redirect_to_url, hf]
        rw [hst, clicksOf_redirect_map] at h2
        have h1x : (st.rows.find? (fun r => r.id == i)).map
            (fun r => r.clicks) = some n := h1
        obtain ⟨q, hfq, hqc⟩ := Option.map_eq_some'.mp h1x
        rw [hfq] at h2
        have hn2 : (if q.short_id == code
            then { q with clicks := q.clicks + 1 } else q).clicks = n2 :=
          Option.some.inj h2
        by_cases hqs : (q.short_id == code) = true
        · rw [if_pos hqs] at hn2
          show n ≤ n2
          rw [← hn2, ← hqc]
          exact Nat.le_succ _
        · rw [if_neg hqs] at hn2
          rw [← hn2, ← hqc]
  | delete code =>
    have key : ∀ i n n2 : Nat, clicksOf st i = some n →
        clicksOf ((UrlOp.delete code).step st) i = some n2 → n2 = n := by
      intro i n n2 h1 h2
      cases hf : st.rows.find? (fun r => r.short_id == code) with
      | none =>
        have hst : (UrlOp.delete code).step st = st := by
          simp only [UrlOp.step, delete_url, hf]
        rw [hst, h1] at h2
        exact (Option.some.inj h2).symm
      | some r =>
        have hst : (UrlOp.delete code).step st =
            { st with rows := st.rows.filter fun r => !(r.short_id == code) } := by
          simp only [UrlOp.step, delete_url, hf]
        rw [hst] at h2
        have h2x : ((st.rows.filter fun r => !(r.short_id == code)).find?
            (fun r => r.id == i)).map (fun r => r.clicks) = some n2 := h2
        have h1x : (st.rows.find? (fun r => r.id == i)).map
            (fun r => r.clicks) = some n := h1
        obtain ⟨q1, hfq1, hq1c⟩ := Option.map_eq_some'.mp h1x
        obtain ⟨q2, hfq2, hq2c⟩ := Option.map_eq_some'.mp h2x
        have hq1m : q1 ∈ st.rows := List.mem_of_find?_eq_some hfq1
        have hq2m : q2 ∈ st.rows :=
          (List.mem_filter.mp (List.mem_of_find?_eq_some hfq2)).1
        have hq1i := List.find?_some hfq1
        have hq2i := List.find?_some hfq2
        have hq1i2 : q1.id = i := by simpa using hq1i
        have hq2i2 : q2.id = i := by simpa using hq2i
        have heq : q2 = q1 :=
          List.inj_on_of_nodup_map hids2 hq2m hq1m (by rw [hq1i2, hq2i2])
        rw [← hq1c, ← hq2c, heq]
    refine ⟨?_, fun i n n2 h1 h2 => Nat.le_of_eq (key i n n2 h1 h2).symm,
      fun _ => key⟩
    · intro i n h1 h2
      cases hf : st.rows.find? (fun r => r.short_id == code) with
      | none =>
        have hst : (UrlOp.delete code).step st = st := by
          simp only [UrlOp.step, delete_url, hf]
        rw [hst, h1] at h2
        cases h2
      | some r =>
        have hst : (UrlOp.delete code).step st =
            { st with rows := st.rows.filter fun r => !(r.short_id == code) } := by
          simp only [UrlOp.step, delete_url, hf]
        rw [hst] at h2
        have h2x : ((st.rows.filter fun r => !(r.short_id == code)).find?
            (fun r => r.id == i)).map (fun r => r.clicks) = some n := h2
        obtain ⟨q2, hfq2, _⟩ := Option.map_eq_some'.mp h2x
        have hq2m : q2 ∈ st.rows :=
          (List.mem_filter.mp (List.mem_of_find?_eq_some hfq2)).1
        have hq2i := List.find?_some hfq2
        have hfnone : st.rows.find? (fun r => r.id == i) = none :=
          Option.map_eq_none'.mp h1
        exact absurd hq2i (List.find?_eq_none.mp hfnone q2 hq2m)
  | stats c =>
    have h3 := clicks_triple_of_eq st ((UrlOp.stats c).step st) rfl
    exact ⟨h3.1, h3.2.1, fun _ => h3.2.2⟩
  | getAll =>
    have h3 := clicks_triple_of_eq st (UrlOp.getAll.step st) rfl
    exact ⟨h3.1, h3.2.1, fun _ => h3.2.2⟩

/-- A live row's click count never drops along any run. -/
theorem clicksOf_run_mono (more : List UrlOp) : ∀ (st : UrlStore),
    StoreInv st → ∀ (i n n2 : Nat), clicksOf st i = some n →
    clicksOf (more.foldl (fun s op => op.step s) st) i = some n2 → n ≤ n2 := by
  induction more with
  | nil =>
    intro st _ i n n2 h1 h2
    have h2x : clicksOf st i = some n2 := h2
    rw [h1] at h2x
    exact Nat.le_of_eq (Option.some.inj h2x)
  | cons op rest ih =>
    intro st hinv i n n2 h1 h2
    cases hmid : clicksOf (op.step st) i with
    | some m =>
      exact Nat.le_trans ((clicksOf_step op st hinv).2.1 i n m h1 hmid)
        (ih (op.step st) (storeInv_step op st hinv) i m n2 hmid h2)
    | none =>
      obtain ⟨_, _, hbound⟩ := hinv
      have h1x : (st.rows.find? (fun r => r.id == i)).map
          (fun r => r.clicks) = some n := h1
      obtain ⟨q, hfq, _⟩ := Option.map_eq_some'.mp h1x
      have hqi : q.id = i := by
        have := List.find?_some hfq
        simpa using this
      have hlive : i < st.nextId := by
        rw [← hqi]
        exact hbound q (List.mem_of_find?_eq_some hfq)
      have hdead := clicksOf_none_run rest (op.step st) i
        (Nat.lt_of_lt_of_le hlive (step_nextId_le op st)) hmid
      have h2x : clicksOf (rest.foldl (fun s op2 => op2.step s) (op.step st)) i
          = some n2 := h2
      rw [hdead] at h2x
      cases h2x

/-! ## C8 -/

/-- C8: from any reachable store, a record's `clicks` is 0 right after
its creation, never decreases across one operation or any further run,
and is changed by no operation other than the redirect. -/
theorem clicks_monotone_spec (ops : List UrlOp) (op : UrlOp) :
    (∀ i n : Nat, clicksOf (runOps ops) i = none →
      clicksOf (op.step (runOps ops)) i = some n → n = 0) ∧
    (∀ i n n2 : Nat, clicksOf (runOps ops) i = some n →
      clicksOf (op.step (runOps ops)) i = some n2 → n ≤ n2) ∧
    (op.isRedirect = false → ∀ i n n2 : Nat, clicksOf (runOps ops) i = some n →
      clicksOf (op.step (runOps ops)) i = some n2 → n2 = n) ∧
    (∀ (more : List UrlOp) (i n n2 : Nat), clicksOf (runOps ops) i = some n →
      clicksOf (runOps (ops ++ more)) i = some n2 → n ≤ n2) := by
  have hinv : StoreInv (runOps ops) := runOps_inv_aux ops emptyStore storeInv_empty
  have h3 := clicksOf_step op (runOps ops) hinv
  refine ⟨h3.1, h3.2.1, h3.2.2, ?_⟩
  intro more i n n2 h1 h2
  have h2x : clicksOf (more.foldl (fun s op2 => op2.step s)
      (runOps ops)) i = some n2 := by
    have : runOps (ops ++ more) =
        more.foldl (fun s op2 => op2.step s) (runOps ops) := by
      show (ops ++ more).foldl (fun s op2 => op2.step s) emptyStore = _
      rw [List.foldl_append]
      rfl
    rw [← this]
    exact h2
  exact clicksOf_run_mono more (runOps ops) hinv i n n2 h1 h2x

/-- C8 witness: one allocation then one redirect; the stored row's
clicks go from 0 to 1, and the frame part applied to a `stats` read
keeps them at 0. -/
theorem clicks_monotone_spec_witness :
    clicksOf (runOps [UrlOp.shorten constGen 1 "http://x" 0]) 1 = some 0 ∧
    clicksOf ((UrlOp.redirect "aaaaaa").step
      (runOps [UrlOp.shorten constGen 1 "http://x" 0])) 1 = some 1 ∧
    (0 : Nat) ≤ 1 :=
  ⟨rfl, rfl,
    (clicks_monotone_spec [UrlOp.shorten constGen 1 "http://x" 0]
      (UrlOp.redirect "aaaaaa")).2.1 1 0 1 rfl rfl⟩
